import Mathlib

/-!
Shallow embedding of the CppVault password vault (Crypto.cpp, Vault.cpp,
main.cpp) and proofs about its specification.

Bytes are modelled as natural numbers; `std::vector<unsigned char>` and
`std::string` become `List Byte`.  The libsodium primitives
(`crypto_pwhash`, `crypto_secretbox_easy`, `crypto_secretbox_open_easy`) are
external to the repository, so they are abstracted into a `CryptoPrims`
record; the repository functions `Crypto::encrypt` / `Crypto::decrypt` are
translated faithfully on top of it.  The random salt and nonce drawn by
`randombytes_buf` inside `Crypto::encrypt` are passed as explicit arguments.
Likewise the nlohmann-json engine behind `Vault::save`/`Vault::load` is
abstracted into a `SerialCodec` record.  File I/O is modelled by passing the
file contents as `Option (List Byte)` (`none` = the file does not exist).
-/

/-- A byte, as a natural number (values of interest are < 256). -/
abbrev Byte := Nat

/-- libsodium `crypto_pwhash_SALTBYTES` (Argon2id salt length). -/
def SALTBYTES : Nat := 16

/-- libsodium `crypto_secretbox_NONCEBYTES`. -/
def NONCEBYTES : Nat := 24

/-- libsodium `crypto_secretbox_MACBYTES` (authentication-tag length). -/
def MACBYTES : Nat := 16

/-- libsodium `crypto_secretbox_KEYBYTES`. -/
def KEYBYTES : Nat := 32

/-- The libsodium primitives used by `Crypto::encrypt` / `Crypto::decrypt`,
abstracted: `derive` is `crypto_pwhash` (password, salt ↦ key; `none` models
the nonzero return on resource exhaustion), `sealBox` is
`crypto_secretbox_easy` (key, nonce, plaintext ↦ ciphertext ++ tag) and
`openBox` is `crypto_secretbox_open_easy` (`none` models tag-verification
failure). -/
structure CryptoPrims where
  derive : List Byte → List Byte → Option (List Byte)
  sealBox : List Byte → List Byte → List Byte → List Byte
  openBox : List Byte → List Byte → List Byte → Option (List Byte)

/-- Embedding of `Crypto::encrypt` (Crypto.cpp): generate a salt, derive a key (throwing
on failure, modelled by `none`), generate a nonce, seal, and return
salt ++ nonce ++ ciphertext.  The random salt and nonce are explicit
arguments. -/
def Crypto.encrypt (C : CryptoPrims) (salt nonce data password : List Byte) :
    Option (List Byte) :=
  match C.derive password salt with
  | none => none
  | some key => some (salt ++ nonce ++ C.sealBox key nonce data)

/-- Embedding of `Crypto::decrypt` (Crypto.cpp): reject inputs shorter than
`SALTBYTES + NONCEBYTES` (note: the source guard does NOT include
`MACBYTES`), split off salt and nonce, re-derive the key, and open the
box.  All failure modes return `none` (`std::nullopt`). -/
def Crypto.decrypt (C : CryptoPrims) (encrypted_data password : List Byte) :
    Option (List Byte) :=
  if encrypted_data.length < SALTBYTES + NONCEBYTES then none
  else
    match C.derive password (encrypted_data.take SALTBYTES) with
    | none => none
    | some key =>
        C.openBox key ((encrypted_data.drop SALTBYTES).take NONCEBYTES)
          (encrypted_data.drop (SALTBYTES + NONCEBYTES))

/-- Embedding of `PasswordEntry` (Vault.h): id is a `uint64_t` timestamp, the rest are
opaque strings. -/
structure PasswordEntry where
  id : Nat
  title : String
  username : String
  password : String
  url : String
  notes : String
deriving DecidableEq, Repr

/-- The JSON serialization layer of Vault.cpp (`to_json`/`from_json`
together with the external nlohmann-json `dump`/`parse` engine), abstracted:
`ser` is `json(entries).dump(4)` and `deser` is
`json::parse(s).get<std::vector<PasswordEntry>>()`, with `none` modelling a
thrown `json::exception`. -/
structure SerialCodec where
  ser : List PasswordEntry → List Byte
  deser : List Byte → Option (List PasswordEntry)

/-- Embedding of `Vault::addEntry` (Vault.cpp): `m_entries.push_back(entry)` —
unconditional append, no duplicate-identifier check. -/
def Vault.addEntry (m_entries : List PasswordEntry) (entry : PasswordEntry) :
    List PasswordEntry :=
  m_entries ++ [entry]

/-- Embedding of `Vault::deleteEntry` (Vault.cpp): the erase/`remove_if` idiom — remove
every entry whose id matches, keeping the others in order. -/
def Vault.deleteEntry (id : Nat) : List PasswordEntry → List PasswordEntry
  | [] => []
  | e :: rest =>
      if e.id = id then Vault.deleteEntry id rest
      else e :: Vault.deleteEntry id rest

/-- Embedding of `Vault::getEntryForEdit` (Vault.cpp): first entry with the given id, if
any (the source returns a mutable pointer; in-place mutation through it is
modelled by `replaceById`). -/
def Vault.getEntryForEdit (id : Nat) : List PasswordEntry → Option PasswordEntry
  | [] => none
  | e :: rest => if e.id = id then some e else Vault.getEntryForEdit id rest

/-- Writing through the pointer returned by `Vault::getEntryForEdit`
(`*existing = currentEntry` in main.cpp): replace the first entry whose id
equals `e.id` by `e`. -/
def replaceById (e : PasswordEntry) : List PasswordEntry → List PasswordEntry
  | [] => []
  | x :: rest =>
      if x.id = e.id then e :: rest else x :: replaceById e rest

/-- The Save handler of the Add/Edit popup (main.cpp lines 234-247): update
in place when an entry with this id exists, otherwise `addEntry`. -/
def uiSaveEntry (l : List PasswordEntry) (e : PasswordEntry) :
    List PasswordEntry :=
  match Vault.getEntryForEdit e.id l with
  | some _ => replaceById e l
  | none => Vault.addEntry l e

/-- Embedding of `Vault::clear` (Vault.cpp). -/
def Vault.clear : List PasswordEntry := []

/-- Embedding of `Vault::save` (Vault.cpp): serialize the entries and encrypt; the
returned bytes are what is written to the file (`none` models the caught
encryption exception, after which nothing is written). -/
def Vault.save (C : CryptoPrims) (S : SerialCodec) (salt nonce : List Byte)
    (m_entries : List PasswordEntry) (password : List Byte) :
    Option (List Byte) :=
  Crypto.encrypt C salt nonce (S.ser m_entries) password

/-- Embedding of `Vault::load` (Vault.cpp): `fs` is the file contents (`none` = the file
does not exist).  Returns the `bool` result together with the resulting
`m_entries`; on every failure path the prior entries are returned
unchanged. -/
def Vault.load (C : CryptoPrims) (S : SerialCodec) (fs : Option (List Byte))
    (password : List Byte) (m_entries : List PasswordEntry) :
    Bool × List PasswordEntry :=
  match fs with
  | none => (false, m_entries)
  | some encrypted_data =>
      if encrypted_data.isEmpty then (false, m_entries)
      else
        match Crypto.decrypt C encrypted_data password with
        | none => (false, m_entries)
        | some plaintext =>
            match S.deser plaintext with
            | none => (false, m_entries)
            | some entries => (true, entries)

/-- Embedding of `AppState` (main.cpp). -/
inductive AppState where
  | Locked
  | Unlocked
deriving DecidableEq, Repr

/-- The message shown when a failed load turns out to be a missing file
(main.cpp line 89, quotes elided). -/
def newVaultMsg : String := "New vault created. Click Save to protect it."

/-- The message shown when a failed load hits an existing file
(main.cpp line 91). -/
def wrongPasswordMsg : String := "Wrong password or corrupt vault file."

/-- The Unlock-button handler of `RenderLoginScreen` (main.cpp lines 80-93):
try `Vault::load`; on failure, check whether the file exists to decide
between the new-vault path (state becomes Unlocked) and the wrong-password
message.  Returns (new state, new entries, login error message). -/
def renderLoginUnlock (C : CryptoPrims) (S : SerialCodec)
    (fs : Option (List Byte)) (password : List Byte)
    (vault : List PasswordEntry) :
    AppState × List PasswordEntry × String :=
  let r := Vault.load C S fs password vault
  if r.1 then (AppState.Unlocked, r.2, "")
  else
    match fs with
    | none => (AppState.Unlocked, r.2, newVaultMsg)
    | some _ => (AppState.Locked, r.2, wrongPasswordMsg)

/-- The `UPPERCASE` alphabet of `GeneratePassword` (main.cpp). -/
def UPPERCASE : List Char := "ABCDEFGHIJKLMNOPQRSTUVWXYZ".data

/-- The `LOWERCASE` alphabet of `GeneratePassword` (main.cpp). -/
def LOWERCASE : List Char := "abcdefghijklmnopqrstuvwxyz".data

/-- The `NUMBERS` alphabet of `GeneratePassword` (main.cpp). -/
def NUMBERS : List Char := "0123456789".data

/-- The `SYMBOLS` alphabet of `GeneratePassword` (main.cpp). -/
def SYMBOLS : List Char := "!@#$%^&*()_+-=[]\x7b\x7d;:,.<>/?".data

/-- The `char_set` assembled by `GeneratePassword` from the selected
character classes. -/
def charSet (use_upper use_lower use_numbers use_symbols : Bool) :
    List Char :=
  (if use_upper then UPPERCASE else []) ++
  (if use_lower then LOWERCASE else []) ++
  (if use_numbers then NUMBERS else []) ++
  (if use_symbols then SYMBOLS else [])

/-- The sampling loop of `GeneratePassword`: `rand i m` models the result of
the i-th call `randombytes_uniform(m)` (libsodium guarantees it is `< m`).
`genChars rand cs i k` produces the next `k` characters starting at call
index `i`. -/
def genChars (rand : Nat → Nat → Nat) (cs : List Char) :
    Nat → Nat → List Char
  | _, 0 => []
  | i, k + 1 =>
      cs.getD (rand i cs.length) 'A' :: genChars rand cs (i + 1) k

/-- Embedding of `GeneratePassword` (main.cpp lines 45-71): build the character set from
the selected classes; return the literal string `Invalid settings` when it
is empty, otherwise sample `length` characters via `randombytes_uniform`. -/
def GeneratePassword (rand : Nat → Nat → Nat) (length : Nat)
    (use_upper use_lower use_numbers use_symbols : Bool) : List Char :=
  let cs := charSet use_upper use_lower use_numbers use_symbols
  if cs.isEmpty then "Invalid settings".data
  else genChars rand cs 0 length

/-- One user-level vault mutation as main.cpp actually performs it: the
Save button of the Add/Edit popup (`uiSaveEntry`) or the Delete button
(`Vault::deleteEntry`). -/
inductive VaultOp where
  | save (e : PasswordEntry)
  | del (id : Nat)

/-- Apply one user-level operation to the entry list. -/
def applyOp (l : List PasswordEntry) : VaultOp → List PasswordEntry
  | VaultOp.save e => uiSaveEntry l e
  | VaultOp.del id => Vault.deleteEntry id l

/-- Run a sequence of user-level operations starting from the empty
vault. -/
def runOps (ops : List VaultOp) : List PasswordEntry :=
  ops.foldl applyOp []

/-- Tag of the toy cipher instance: the first `MACBYTES` bytes of
key ++ nonce (padded with zeros). -/
def toyTag (key nonce : List Byte) : List Byte :=
  (key ++ nonce ++ List.replicate MACBYTES 0).take MACBYTES

/-- A concrete executable instance of the libsodium primitives, used to
instantiate the abstract theorems on computable inputs: the derived key is
password ++ salt, sealing shifts every byte by one and appends `toyTag`,
opening verifies the tag and undoes the shift. -/
def toyPrims : CryptoPrims where
  derive password salt := some (password ++ salt)
  sealBox key nonce pt := pt.map (fun b => (b + 1) % 256) ++ toyTag key nonce
  openBox key nonce ct :=
    if MACBYTES ≤ ct.length ∧ ct.drop (ct.length - MACBYTES) = toyTag key nonce
    then some ((ct.take (ct.length - MACBYTES)).map (fun b => (b + 255) % 256))
    else none

/-- Primitive instance whose key derivation always fails, modelling
resource exhaustion inside `crypto_pwhash`. -/
def kdfFailPrims : CryptoPrims where
  derive _ _ := none
  sealBox _ _ pt := pt
  openBox _ _ _ := none

/-- Primitive instance whose key derivation succeeds but whose tag
verification always fails, modelling a wrong password or a tampered
ciphertext. -/
def authFailPrims : CryptoPrims where
  derive _ _ := some (List.replicate KEYBYTES 0)
  sealBox _ _ pt := pt
  openBox _ _ _ := none

/-- Primitive instance that opens everything successfully; comparing it
with `kdfFailPrims` makes visible which steps `Crypto::decrypt` actually
reaches on a given input. -/
def openOkPrims : CryptoPrims where
  derive _ _ := some []
  sealBox _ _ pt := pt
  openBox _ _ _ := some [7]

/-- A concrete entry (id 1). -/
def entryA : PasswordEntry :=
  { id := 1, title := "mail", username := "alice", password := "pw1",
    url := "https://mail.example", notes := "personal" }

/-- A concrete entry (id 2). -/
def entryB : PasswordEntry :=
  { id := 2, title := "bank", username := "bob", password := "pw2",
    url := "https://bank.example", notes := "" }

/-- A concrete entry that shares its identifier with `entryA`. -/
def entryC : PasswordEntry :=
  { id := 1, title := "dup", username := "carol", password := "pw3",
    url := "", notes := "" }

/-- A concrete executable serialization codec for the record lists used in
the witnesses (the abstract inverse property of the JSON layer is a
hypothesis of the theorems; this instance satisfies it at those lists). -/
def toyCodec : SerialCodec where
  ser entries := [entries.length % 256]
  deser bytes :=
    if bytes = [0] then some []
    else if bytes = [2] then some [entryA, entryB]
    else none

/-- A concrete password, salt and nonce for the witnesses. -/
def pw0 : List Byte := [112, 119]

/-- A concrete salt of the mandated length. -/
def salt0 : List Byte := List.replicate SALTBYTES 7

/-- A concrete nonce of the mandated length. -/
def nonce0 : List Byte := List.replicate NONCEBYTES 9

/-- The bytes of the string hello. -/
def helloBytes : List Byte := [104, 101, 108, 108, 111]

/-- A 40-byte input: exactly `SALTBYTES + NONCEBYTES`, hence shorter than
`SALTBYTES + NONCEBYTES + MACBYTES`. -/
def shortEnvelope : List Byte := List.replicate 40 0

/-- A 56-byte all-zero input, long enough to pass the length guard. -/
def env56 : List Byte := List.replicate 56 0

/-- A short garbage file content, undecryptable. -/
def garbageFile : List Byte := [1, 2, 3]

/-- Helper: `deleteEntry` is exactly the filter keeping non-matching
ids. -/
theorem deleteEntry_eq_filter (id : Nat) (l : List PasswordEntry) :
    Vault.deleteEntry id l = l.filter (fun e => decide (e.id ≠ id)) := by
  induction l with
  | nil => rfl
  | cons e rest ih =>
      by_cases h : e.id = id
      · simp [Vault.deleteEntry, h, ih]
      · simp [Vault.deleteEntry, h, ih]

/-- Helper: `replaceById` never changes the identifier sequence. -/
theorem replaceById_map_id (e : PasswordEntry) (l : List PasswordEntry) :
    (replaceById e l).map PasswordEntry.id = l.map PasswordEntry.id := by
  induction l with
  | nil => rfl
  | cons x rest ih =>
      by_cases h : x.id = e.id
      · simp [replaceById, h]
      · simp [replaceById, h, ih]

/-- Helper: when `getEntryForEdit` finds nothing, no entry has that id. -/
theorem getEntryForEdit_none (id : Nat) (l : List PasswordEntry)
    (h : Vault.getEntryForEdit id l = none) : ∀ x ∈ l, x.id ≠ id := by
  induction l with
  | nil => intro x hx; cases hx
  | cons y rest ih =>
      intro x hx
      by_cases hy : y.id = id
      · simp [Vault.getEntryForEdit, hy] at h
      · simp only [Vault.getEntryForEdit, hy, if_false, ite_false] at h
        rcases List.mem_cons.mp hx with hx2 | hx2
        · rw [hx2]; exact hy
        · exact ih h x hx2

/-- Helper: applying one user-level operation preserves uniqueness of the
identifier sequence. -/
theorem applyOp_nodup (l : List PasswordEntry) (op : VaultOp)
    (h : (l.map PasswordEntry.id).Nodup) :
    ((applyOp l op).map PasswordEntry.id).Nodup := by
  cases op with
  | save e =>
      show ((uiSaveEntry l e).map PasswordEntry.id).Nodup
      unfold uiSaveEntry
      cases hfind : Vault.getEntryForEdit e.id l with
      | some x =>
          simp only [hfind]
          simpa [replaceById_map_id] using h
      | none =>
          have hnot : ∀ x ∈ l, x.id ≠ e.id := getEntryForEdit_none e.id l hfind
          simp only [hfind, Vault.addEntry, List.map_append, List.map_cons,
            List.map_nil]
          rw [List.nodup_append]
          refine ⟨h, List.nodup_singleton _, ?_⟩
          intro a ha hb
          simp only [List.mem_singleton] at hb
          rcases List.mem_map.mp ha with ⟨x, hx, hxe⟩
          exact hnot x hx (hxe.trans hb)
  | del id =>
      show ((Vault.deleteEntry id l).map PasswordEntry.id).Nodup
      rw [deleteEntry_eq_filter]
      exact h.sublist (List.Sublist.map _ (List.filter_sublist l))

/-- Helper: running any operation sequence from a vault with unique ids
keeps ids unique. -/
theorem foldl_applyOp_nodup (ops : List VaultOp) :
    ∀ l : List PasswordEntry, (l.map PasswordEntry.id).Nodup →
      (((ops.foldl applyOp l)).map PasswordEntry.id).Nodup := by
  induction ops with
  | nil => intro l h; exact h
  | cons op rest ih =>
      intro l h
      exact ih (applyOp l op) (applyOp_nodup l op h)

/-- C3 counterexample: starting from the empty vault, two `addEntry` calls
with the same identifier silently append a duplicate — the result holds two
records, both with identifier 1, so the identifier sequence is not
duplicate-free; the insert was neither rejected nor treated as replace. -/
theorem C3_addEntry_duplicates :
    Vault.addEntry (Vault.addEntry [] entryA) entryC = [entryA, entryC] ∧
    (Vault.addEntry (Vault.addEntry [] entryA) entryC).map PasswordEntry.id
      = [1, 1] ∧
    ¬ ((Vault.addEntry (Vault.addEntry [] entryA) entryC).map
        PasswordEntry.id).Nodup := by
  refine ⟨rfl, by decide, by decide⟩

/-- C3 (amended): `Vault::addEntry` itself appends unconditionally, so a
duplicate identifier is silently duplicated; identifier uniqueness holds
for the operation sequence the application actually performs — the
Add/Edit-popup Save handler, which updates in place via `getEntryForEdit`
when the identifier exists and appends only when it is absent, and the
Delete button.  After any sequence of those operations starting from the
empty vault, no two records share an identifier. -/
theorem C3_ui_ops_unique_ids (ops : List VaultOp) :
    ((runOps ops).map PasswordEntry.id).Nodup := by
  unfold runOps
  exact foldl_applyOp_nodup ops [] (by simp)

/-- C10: `Vault::deleteEntry` removes every entry whose identifier equals
the given id (it equals the order-preserving filter of the non-matching
entries, hence also a sublist of the original), and is the identity when no
entry matches. -/
theorem C10_deleteEntry_spec (l : List PasswordEntry) (id : Nat) :
    Vault.deleteEntry id l = l.filter (fun e => decide (e.id ≠ id)) ∧
    (∀ e ∈ Vault.deleteEntry id l, e.id ≠ id) ∧
    List.Sublist (Vault.deleteEntry id l) l ∧
    ((∀ e ∈ l, e.id ≠ id) → Vault.deleteEntry id l = l) := by
  refine ⟨deleteEntry_eq_filter id l, ?_, ?_, ?_⟩
  · intro e he
    rw [deleteEntry_eq_filter] at he
    have := List.of_mem_filter he
    simpa using this
  · rw [deleteEntry_eq_filter]
    exact List.filter_sublist l
  · intro hall
    rw [deleteEntry_eq_filter]
    apply List.filter_eq_self.mpr
    intro e he
    simpa using hall e he

/-- C10 witness: deleting id 1 from a list that holds two records with id 1
removes both and keeps `entryB`; deleting an absent id changes nothing. -/
theorem C10_deleteEntry_spec_witness :
    Vault.deleteEntry 1 [entryA, entryB, entryC] = [entryB] ∧
    Vault.deleteEntry 5 [entryA, entryB] = [entryA, entryB] := by
  constructor
  · exact ((C10_deleteEntry_spec [entryA, entryB, entryC] 1).1).trans (by decide)
  · exact (C10_deleteEntry_spec [entryA, entryB] 5).2.2.2 (by decide)

/-- C4 (code-bug evidence): `shortEnvelope` has 40 bytes — shorter than
`SALTBYTES + NONCEBYTES + MACBYTES` = 56, so the claim requires immediate
rejection before key derivation.  Yet the result of `Crypto::decrypt` on it
depends on the `derive` primitive (two primitive instances differing there
give different results), so the guard `len < SALTBYTES + NONCEBYTES` lets
the input through and key derivation is invoked. -/
theorem C4_short_input_reaches_kdf :
    shortEnvelope.length < SALTBYTES + NONCEBYTES + MACBYTES ∧
    Crypto.decrypt kdfFailPrims shortEnvelope pw0 ≠
      Crypto.decrypt openOkPrims shortEnvelope pw0 := by
  refine ⟨by decide, by decide⟩

/-- C5 counterexample: `Vault::load` returns the very same outcome —
`false` with the prior entries untouched — for a missing file and for an
existing undecryptable file, so its result is not a distinct NotFound
outcome. -/
theorem C5_load_outcomes_equal :
    Vault.load toyPrims toyCodec none pw0 [entryA] =
      Vault.load toyPrims toyCodec (some garbageFile) pw0 [entryA] ∧
    Vault.load toyPrims toyCodec none pw0 [entryA] = (false, [entryA]) := by
  refine ⟨by decide, by decide⟩

/-- C5 (amended): `Vault::load` itself collapses the missing-file case and
the undecryptable-file case into the same boolean failure; the two are
distinguished one level up, by the Unlock handler of `RenderLoginScreen`,
which re-checks file existence after a failed load and reports the
new-vault message for a missing file and the wrong-password message
otherwise. -/
theorem C5_login_distinguishes (C : CryptoPrims) (S : SerialCodec)
    (password : List Byte) (prior : List PasswordEntry) (data : List Byte)
    (hne : data.isEmpty = false)
    (hfail : Crypto.decrypt C data password = none) :
    Vault.load C S none password prior =
      Vault.load C S (some data) password prior ∧
    renderLoginUnlock C S none password prior =
      (AppState.Unlocked, prior, newVaultMsg) ∧
    renderLoginUnlock C S (some data) password prior =
      (AppState.Locked, prior, wrongPasswordMsg) ∧
    newVaultMsg ≠ wrongPasswordMsg := by
  have hload : Vault.load C S (some data) password prior = (false, prior) := by
    simp only [Vault.load, hne, Bool.false_eq_true, if_false, hfail]
  refine ⟨?_, ?_, ?_, by decide⟩
  · rw [hload]; rfl
  · rfl
  · unfold renderLoginUnlock
    rw [hload]
    rfl

/-- C5 witness: the amended statement at a concrete garbage file. -/
theorem C5_login_distinguishes_witness :
    Vault.load toyPrims toyCodec none pw0 [entryB] =
      Vault.load toyPrims toyCodec (some garbageFile) pw0 [entryB] ∧
    renderLoginUnlock toyPrims toyCodec none pw0 [entryB] =
      (AppState.Unlocked, [entryB], newVaultMsg) ∧
    renderLoginUnlock toyPrims toyCodec (some garbageFile) pw0 [entryB] =
      (AppState.Locked, [entryB], wrongPasswordMsg) ∧
    newVaultMsg ≠ wrongPasswordMsg :=
  C5_login_distinguishes toyPrims toyCodec pw0 [entryB] garbageFile
    (by decide) (by decide)

/-- C6 counterexample: on a 56-byte input that passes the length guard,
`Crypto::decrypt` returns the same value `none` when key derivation fails
(resource exhaustion) as when tag verification fails (wrong password or
tampering) — the caller cannot tell the two apart from the result. -/
theorem C6_decode_failures_equal :
    Crypto.decrypt kdfFailPrims env56 pw0 = none ∧
    Crypto.decrypt authFailPrims env56 pw0 = none := by
  refine ⟨by decide, by decide⟩

/-- C6 (amended): inside `Crypto::decrypt` every failure is surfaced as the
single value `none` (`std::nullopt`): when key derivation fails the result
is `none`, when authentication fails the result is `none`, and the two
results are equal, so decode gives the caller no way to distinguish a
resource-exhaustion failure from a wrong-password failure (only the encode
path surfaces derivation failure distinctly, as a thrown exception). -/
theorem C6_decode_collapses_failures (C D : CryptoPrims)
    (env password key : List Byte)
    (hlen : ¬ env.length < SALTBYTES + NONCEBYTES)
    (hkdf : C.derive password (env.take SALTBYTES) = none)
    (hd : D.derive password (env.take SALTBYTES) = some key)
    (hauth : D.openBox key ((env.drop SALTBYTES).take NONCEBYTES)
        (env.drop (SALTBYTES + NONCEBYTES)) = none) :
    Crypto.decrypt C env password = none ∧
    Crypto.decrypt D env password = none ∧
    Crypto.decrypt C env password = Crypto.decrypt D env password := by
  have h1 : Crypto.decrypt C env password = none := by
    unfold Crypto.decrypt
    rw [if_neg hlen, hkdf]
  have h2 : Crypto.decrypt D env password = none := by
    unfold Crypto.decrypt
    rw [if_neg hlen, hd]
    exact hauth
  exact ⟨h1, h2, h1.trans h2.symm⟩

/-- C6 witness: the amended statement at the concrete 56-byte input and
concrete failing primitive instances. -/
theorem C6_decode_collapses_failures_witness :
    Crypto.decrypt kdfFailPrims env56 pw0 = none ∧
    Crypto.decrypt authFailPrims env56 pw0 = none ∧
    Crypto.decrypt kdfFailPrims env56 pw0 =
      Crypto.decrypt authFailPrims env56 pw0 :=
  C6_decode_collapses_failures kdfFailPrims authFailPrims env56 pw0
    (List.replicate KEYBYTES 0) (by decide) (by decide) (by decide)
    (by decide)

/-- Helper: on an envelope assembled as salt ++ nonce ++ sealed with salt
and nonce of the mandated lengths, `Crypto::decrypt` re-extracts exactly
those components. -/
theorem decrypt_append (C : CryptoPrims) (salt nonce sealed password : List Byte)
    (hsalt : salt.length = SALTBYTES) (hnonce : nonce.length = NONCEBYTES) :
    Crypto.decrypt C (salt ++ nonce ++ sealed) password =
      match C.derive password salt with
      | none => none
      | some key => C.openBox key nonce sealed := by
  have hlen : ¬ (salt ++ nonce ++ sealed).length < SALTBYTES + NONCEBYTES := by
    simp only [List.length_append, hsalt, hnonce]
    omega
  have htake : (salt ++ nonce ++ sealed).take SALTBYTES = salt := by
    rw [List.append_assoc, ← hsalt]
    exact List.take_left salt (nonce ++ sealed)
  have htake2 : ((salt ++ nonce ++ sealed).drop SALTBYTES).take NONCEBYTES
      = nonce := by
    rw [List.append_assoc, ← hsalt]
    rw [List.drop_left salt (nonce ++ sealed)]
    rw [← hnonce]
    exact List.take_left nonce sealed
  have hdrop2 : (salt ++ nonce ++ sealed).drop (SALTBYTES + NONCEBYTES)
      = sealed := by
    have h : SALTBYTES + NONCEBYTES = (salt ++ nonce).length := by
      simp [hsalt, hnonce]
    rw [h]
    exact List.drop_left (salt ++ nonce) sealed
  unfold Crypto.decrypt
  rw [if_neg hlen, htake, htake2, hdrop2]

/-- C1: the save/load round trip — for every record sequence, password,
salt and nonce of the mandated lengths, provided key derivation succeeds,
the cipher opens what it sealed (the secretbox contract) and the JSON layer
inverts itself (its documented contract), loading what save produced
succeeds and returns exactly the original records, in order. -/
theorem C1_save_load_roundtrip (C : CryptoPrims) (S : SerialCodec)
    (R prior : List PasswordEntry) (password salt nonce key : List Byte)
    (hsalt : salt.length = SALTBYTES) (hnonce : nonce.length = NONCEBYTES)
    (hderive : C.derive password salt = some key)
    (hopen : C.openBox key nonce (C.sealBox key nonce (S.ser R))
      = some (S.ser R))
    (hdeser : S.deser (S.ser R) = some R) :
    Vault.load C S (Vault.save C S salt nonce R password) password prior
      = (true, R) := by
  have hsave : Vault.save C S salt nonce R password
      = some (salt ++ nonce ++ C.sealBox key nonce (S.ser R)) := by
    unfold Vault.save Crypto.encrypt
    rw [hderive]
  have hne : (salt ++ nonce ++ C.sealBox key nonce (S.ser R)).isEmpty
      = false := by
    cases h : salt ++ nonce ++ C.sealBox key nonce (S.ser R) with
    | nil =>
        have hl := congrArg List.length h
        simp only [List.length_append, hsalt, List.length_nil, SALTBYTES] at hl
        omega
    | cons x xs => rfl
  have hdec : Crypto.decrypt C (salt ++ nonce ++ C.sealBox key nonce (S.ser R))
      password = some (S.ser R) := by
    rw [decrypt_append C salt nonce _ password hsalt hnonce, hderive]
    exact hopen
  rw [hsave]
  simp only [Vault.load, hne, Bool.false_eq_true, if_false, hdec, hdeser]

/-- C1 witness: the round trip at a concrete two-record vault, password,
salt and nonce, with the concrete primitive and codec instances. -/
theorem C1_save_load_roundtrip_witness :
    Vault.load toyPrims toyCodec
        (Vault.save toyPrims toyCodec salt0 nonce0 [entryA, entryB] pw0)
        pw0 []
      = (true, [entryA, entryB]) :=
  C1_save_load_roundtrip toyPrims toyCodec [entryA, entryB] [] pw0 salt0
    nonce0 (pw0 ++ salt0) (by decide) (by decide) (by decide) (by decide)
    (by decide)

/-- C7: `Vault::load` is atomic — whenever it reports failure (missing
file, empty file, failed decryption or failed deserialization) the prior
in-memory entries are returned untouched, and whenever it reports success
the resulting entries are exactly the deserialization of the decrypted
file contents. -/
theorem C7_load_atomic (C : CryptoPrims) (S : SerialCodec)
    (fs : Option (List Byte)) (password : List Byte)
    (prior : List PasswordEntry) :
    ((Vault.load C S fs password prior).1 = false →
      (Vault.load C S fs password prior).2 = prior) ∧
    ((Vault.load C S fs password prior).1 = true →
      ∃ data plaintext, fs = some data ∧ data.isEmpty = false ∧
        Crypto.decrypt C data password = some plaintext ∧
        S.deser plaintext = some ((Vault.load C S fs password prior).2)) := by
  cases fs with
  | none =>
      exact ⟨fun _ => rfl, fun h => by simp [Vault.load] at h⟩
  | some data =>
      by_cases hemp : data.isEmpty = true
      · exact ⟨fun _ => by simp [Vault.load, hemp],
          fun h => by simp [Vault.load, hemp] at h⟩
      · cases hdec : Crypto.decrypt C data password with
        | none =>
            exact ⟨fun _ => by simp [Vault.load, hemp, hdec],
              fun h => by simp [Vault.load, hemp, hdec] at h⟩
        | some pt =>
            cases hdes : S.deser pt with
            | none =>
                exact ⟨fun _ => by simp [Vault.load, hemp, hdec, hdes],
                  fun h => by simp [Vault.load, hemp, hdec, hdes] at h⟩
            | some entries =>
                refine ⟨fun h => ?_, fun _ => ?_⟩
                · simp [Vault.load, hemp, hdec, hdes] at h
                · refine ⟨data, pt, rfl, by simpa using hemp, hdec, ?_⟩
                  simp [Vault.load, hemp, hdec, hdes]

/-- C7 witness: a concrete failed load (garbage file contents) leaves the
prior entries untouched. -/
theorem C7_load_atomic_witness :
    (Vault.load toyPrims toyCodec (some garbageFile) pw0 [entryA]).2
      = [entryA] :=
  (C7_load_atomic toyPrims toyCodec (some garbageFile) pw0 [entryA]).1
    (by decide)

/-- C8: `Crypto::encrypt` returns salt ++ nonce ++ ciphertext-with-tag,
of total length `SALTBYTES + NONCEBYTES + plaintext length + MACBYTES`,
given salt and nonce of the mandated lengths, successful key derivation,
and the secretbox length contract for the seal step. -/
theorem C8_encrypt_length (C : CryptoPrims)
    (salt nonce data password key : List Byte)
    (hsalt : salt.length = SALTBYTES) (hnonce : nonce.length = NONCEBYTES)
    (hderive : C.derive password salt = some key)
    (hseal : (C.sealBox key nonce data).length = data.length + MACBYTES) :
    (Crypto.encrypt C salt nonce data password).map List.length =
      some (SALTBYTES + NONCEBYTES + data.length + MACBYTES) := by
  unfold Crypto.encrypt
  rw [hderive]
  simp only [Option.map_some', List.length_append, hsalt, hnonce, hseal,
    Option.some.injEq]
  omega

/-- C8 witness: encoding the empty plaintext yields exactly
`SALTBYTES + NONCEBYTES + MACBYTES` bytes and encoding the five bytes of
hello yields `SALTBYTES + NONCEBYTES + 5 + MACBYTES` bytes. -/
theorem C8_encrypt_length_witness :
    (Crypto.encrypt toyPrims salt0 nonce0 [] pw0).map List.length =
      some (SALTBYTES + NONCEBYTES + MACBYTES) ∧
    (Crypto.encrypt toyPrims salt0 nonce0 helloBytes pw0).map List.length =
      some (SALTBYTES + NONCEBYTES + 5 + MACBYTES) := by
  constructor
  · have h := C8_encrypt_length toyPrims salt0 nonce0 [] pw0 (pw0 ++ salt0)
      (by decide) (by decide) (by decide) (by decide)
    simpa using h
  · have h := C8_encrypt_length toyPrims salt0 nonce0 helloBytes pw0
      (pw0 ++ salt0) (by decide) (by decide) (by decide) (by decide)
    simpa [helloBytes] using h

/-- Helper: the sampling loop produces exactly the requested number of
characters. -/
theorem genChars_length (rand : Nat → Nat → Nat) (cs : List Char) :
    ∀ k i, (genChars rand cs i k).length = k := by
  intro k
  induction k with
  | zero => intro i; rfl
  | succ k ih => intro i; simp [genChars, ih]

/-- Helper: position j of the loop output starting at call index i is the
character the sampler picked at call index i + j. -/
theorem genChars_getD (rand : Nat → Nat → Nat) (cs : List Char) :
    ∀ k i j, j < k →
      (genChars rand cs i k).getD j 'A' = cs.getD (rand (i + j) cs.length) 'A' := by
  intro k
  induction k with
  | zero => intro i j hj; omega
  | succ k ih =>
      intro i j hj
      cases j with
      | zero => simp [genChars]
      | succ j =>
          have h := ih (i + 1) j (by omega)
          simp only [genChars, List.getD_cons_succ]
          rw [h]
          have : i + 1 + j = i + (j + 1) := by omega
          rw [this]

/-- Helper: when the sampler respects its bound, every character the loop
produces belongs to the alphabet. -/
theorem genChars_mem (rand : Nat → Nat → Nat) (cs : List Char)
    (hne : cs ≠ []) (hrand : ∀ i m, 0 < m → rand i m < m) :
    ∀ k i, ∀ c ∈ genChars rand cs i k, c ∈ cs := by
  intro k
  induction k with
  | zero => intro i c hc; cases hc
  | succ k ih =>
      intro i c hc
      rcases List.mem_cons.mp hc with hc2 | hc2
      · have hlt : rand i cs.length < cs.length :=
          hrand i cs.length (List.length_pos.mpr hne)
        rw [hc2, List.getD_eq_getElem cs 'A' hlt]
        exact List.getElem_mem hlt
      · exact ih (i + 1) c hc2

/-- C9: `GeneratePassword` returns the fixed invalid-configuration string
when no character class is selected; otherwise — assuming the
`randombytes_uniform` contract, that the sampler output is below its
bound — it returns exactly the requested number of characters, every one
belonging to the alphabet assembled from the selected classes, and the
character at each position j is the alphabet entry selected by the j-th
uniform draw over the whole alphabet. -/
theorem C9_generatePassword (rand : Nat → Nat → Nat) (length : Nat)
    (use_upper use_lower use_numbers use_symbols : Bool)
    (hrand : ∀ i m, 0 < m → rand i m < m) :
    (charSet use_upper use_lower use_numbers use_symbols = [] →
      GeneratePassword rand length use_upper use_lower use_numbers
        use_symbols = "Invalid settings".data) ∧
    (charSet use_upper use_lower use_numbers use_symbols ≠ [] →
      (GeneratePassword rand length use_upper use_lower use_numbers
          use_symbols).length = length ∧
      (∀ c ∈ GeneratePassword rand length use_upper use_lower use_numbers
          use_symbols, c ∈ charSet use_upper use_lower use_numbers
          use_symbols) ∧
      (∀ j, j < length →
        (GeneratePassword rand length use_upper use_lower use_numbers
            use_symbols).getD j 'A' =
          (charSet use_upper use_lower use_numbers use_symbols).getD
            (rand j (charSet use_upper use_lower use_numbers
              use_symbols).length) 'A')) := by
  constructor
  · intro h
    unfold GeneratePassword
    rw [h]
    rfl
  · intro h
    have hne : (charSet use_upper use_lower use_numbers
        use_symbols).isEmpty = false := by
      cases hcs : charSet use_upper use_lower use_numbers use_symbols with
      | nil => exact absurd hcs h
      | cons x xs => rfl
    have hgen : GeneratePassword rand length use_upper use_lower use_numbers
        use_symbols = genChars rand
          (charSet use_upper use_lower use_numbers use_symbols) 0 length := by
      simp only [GeneratePassword, hne, Bool.false_eq_true, if_false]
    refine ⟨?_, ?_, ?_⟩
    · rw [hgen]; exact genChars_length rand _ length 0
    · rw [hgen]; exact genChars_mem rand _ h hrand length 0
    · intro j hj
      rw [hgen]
      have := genChars_getD rand
        (charSet use_upper use_lower use_numbers use_symbols) length 0 j hj
      simpa using this

/-- C9 witness: with a concrete in-bounds sampler, selecting no class
yields the invalid-configuration string, and selecting uppercase only
yields a password of the requested length 8. -/
theorem C9_generatePassword_witness :
    GeneratePassword (fun i m => i % m) 8 false false false false =
      "Invalid settings".data ∧
    (GeneratePassword (fun i m => i % m) 8 true false false false).length
      = 8 := by
  have hrand : ∀ i m, 0 < m → (fun i m => i % m) i m < m :=
    fun i m hm => Nat.mod_lt i hm
  constructor
  · exact (C9_generatePassword (fun i m => i % m) 8 false false false false
      hrand).1 (by decide)
  · exact ((C9_generatePassword (fun i m => i % m) 8 true false false false
      hrand).2 (by decide)).1
